import Mathlib

/-!
Verification of the time-series alignment and feature-derivation engine of
`DataScience/ProcessData.py`: alignment of the raw time channel onto a
one-second grid, pandas-style linear interpolation of numeric channels,
bearing computation, wind decomposition, stride length under IEEE division
semantics, and context-dependent feature derivation.
-/

namespace MarathonSim

/-- One row of the aligned table: timestamp (whole seconds), the
`is_original` marker (`none` models the `NaN` that `reindex` inserts), and
one numeric channel value (`none` models `NaN`). -/
structure AlignedRow where
  timestamp : ℕ
  is_original : Option Bool
  value : Option ℚ
deriving DecidableEq, Repr

/-- Models `self.csv_data.index.min()` on the timestamp index. -/
def listMin : List ℕ → ℕ
  | [] => 0
  | t :: ts => ts.foldl min t

/-- Models `self.csv_data.index.max()` on the timestamp index. -/
def listMax : List ℕ → ℕ
  | [] => 0
  | t :: ts => ts.foldl max t

/-- Models `pd.date_range(start=start_time, end=end_time, freq="1s")`: the complete
one-second grid from the minimum to the maximum timestamp. -/
def complete_time_range (time : List ℕ) : List ℕ :=
  (List.range (listMax time - listMin time + 1)).map (fun d => listMin time + d)

/-- Value of a reindexed column at grid label `g`: the sample stored at label
`g` of the original index, `none` when the label is absent (pandas fills new
labels with `NaN`). -/
def reindexVal (time : List ℕ) (col : List (Option ℚ)) (g : ℕ) : Option ℚ :=
  match (time.zip col).find? (fun p => p.1 == g) with
  | some p => p.2
  | none => none

/-- Last observed sample strictly before position `i`, as (position, value). -/
def prevObs (col : List (Option ℚ)) (i : ℕ) : Option (ℕ × ℚ) :=
  ((List.range i).filterMap (fun j => (col.getD j none).map (fun v => (j, v)))).getLast?

/-- First observed sample strictly after position `i`, as (position, value). -/
def nextObs (col : List (Option ℚ)) (i : ℕ) : Option (ℕ × ℚ) :=
  (((List.range (col.length - (i + 1))).map (fun d => i + 1 + d)).filterMap
    (fun j => (col.getD j none).map (fun v => (j, v)))).head?

/-- Models `Series.interpolate(method="linear")` at one position: observed values
are kept; a missing value with observed neighbours on both sides is filled
linearly; a missing value after the last observed sample is filled with that
sample (the default `limit_direction="forward"` pads trailing gaps); a
missing value before the first observed sample stays missing. -/
def interpAt (col : List (Option ℚ)) (i : ℕ) : Option ℚ :=
  match col.getD i none with
  | some v => some v
  | none =>
    match prevObs col i with
    | none => none
    | some (j, vj) =>
      match nextObs col i with
      | none => some vj
      | some (k, vk) => some (vj + (vk - vj) * ((i : ℚ) - (j : ℚ)) / ((k : ℚ) - (j : ℚ)))

/-- Models `self.csv_data[numeric_columns].interpolate(method="linear")` on one column. -/
def pandasInterpolate (col : List (Option ℚ)) : List (Option ℚ) :=
  (List.range col.length).map (interpAt col)

inductive AlignError where
  | emptyStream
  | duplicateLabels
deriving DecidableEq, Repr

/-- The rows produced by reindexing onto the complete grid and interpolating:
each grid timestamp keeps the original `is_original = True` where the label
existed (`NaN`, i.e. `none`, elsewhere) and the interpolated channel value. -/
def alignedRows (time : List ℕ) (col : List (Option ℚ)) : List AlignedRow :=
  let grid := complete_time_range time
  let interp := pandasInterpolate (grid.map (reindexVal time col))
  (List.range grid.length).map (fun i =>
    ⟨grid.getD i 0, if grid.getD i 0 ∈ time then some true else none, interp.getD i none⟩)

/-- Models `DataProcessor.interpolate_missing_data` on the time index and one
numeric channel. An empty time channel leaves no grid to build
(`emptyStream`); a duplicated timestamp makes `DataFrame.reindex` raise
`ValueError: cannot reindex on an axis with duplicate labels`
(`duplicateLabels`). -/
def interpolate_missing_data (time : List ℕ) (col : List (Option ℚ)) :
    Except AlignError (List AlignedRow) :=
  match time with
  | [] => .error .emptyStream
  | t :: ts =>
    if (t :: ts).Nodup then .ok (alignedRows (t :: ts) col)
    else .error .duplicateLabels

/-- An IEEE-style extended value: finite rational, an infinity, or NaN. -/
inductive FVal where
  | fin (q : ℚ)
  | pinf
  | ninf
  | nan
deriving DecidableEq, Repr

/-- IEEE division as performed by the elementwise pandas column division. -/
def FVal.div : FVal → FVal → FVal
  | .nan, _ => .nan
  | _, .nan => .nan
  | .fin a, .fin b =>
    if b = 0 then
      (if a = 0 then .nan else if 0 < a then .pinf else .ninf)
    else .fin (a / b)
  | .fin _, .pinf => .fin 0
  | .fin _, .ninf => .fin 0
  | .pinf, .fin b => if b < 0 then .ninf else .pinf
  | .ninf, .fin b => if b < 0 then .pinf else .ninf
  | .pinf, .pinf => .nan
  | .pinf, .ninf => .nan
  | .ninf, .pinf => .nan
  | .ninf, .ninf => .nan

/-- The elementwise mask `stride_length_m == np.inf`: true only for `+inf`
(IEEE: `NaN == inf` and `-inf == inf` are both false). -/
def FVal.eqPosInf : FVal → Bool
  | .pinf => true
  | _ => false

/-- Models `self.csv_data.loc[self.csv_data["stride_length_m"] == np.inf, "stride_length_m"] = 0`. -/
def stride_fixup (v : FVal) : FVal :=
  if v.eqPosInf then .fin 0 else v

/-- Models `stride_length_m = velocity / cadence`, followed by the `+inf` fixup. -/
def stride_length_m (vel cad : FVal) : FVal :=
  stride_fixup (vel.div cad)

/-- The weather observation inside `json_data["weather"]`. -/
structure Weather where
  winddir : ℚ
  windspeed : ℚ
deriving DecidableEq, Repr

/-- Run-level scalar context (`self.json_data`): fields are `Option` because
a missing dictionary key raises `KeyError` at access time. -/
structure RunContext where
  weather : Option Weather
  max_speed : Option ℚ
  max_heartrate : Option ℚ
deriving DecidableEq, Repr

inductive FeatureError where
  | missingContext
deriving DecidableEq, Repr

/-- The per-row channels consumed by the context-dependent features. -/
structure FRow where
  velocity_mps : ℚ
  heartrate_bps : ℚ
deriving DecidableEq, Repr

/-- Models `pace_efficiency = (velocity / max_speed) * (1 - (hr_bps - resting/60) / (max_heartrate/60))`. -/
def pace_efficiency (max_speed max_heartrate resting_heart_rate vel hr : ℚ) : ℚ :=
  (vel / max_speed) * (1 - (hr - resting_heart_rate / 60) / (max_heartrate / 60))

/-- The context-dependent part of `DataProcessor.feature_engineering`:
accessing `json_data["weather"]`, `json_data["max_speed"]` or
`json_data["max_heartrate"]` raises `KeyError` when the key is absent,
modelled as `Except.error`; derived values are computed only when all
context is present, with no default substituted. Per row the derived pair is
`(windspeed in m/s, pace_efficiency)`. -/
def feature_engineering (rows : List FRow) (ctx : RunContext) (resting_heart_rate : ℚ) :
    Except FeatureError (List (ℚ × ℚ)) :=
  match ctx.weather with
  | none => .error .missingContext
  | some w =>
    match ctx.max_speed with
    | none => .error .missingContext
    | some ms =>
      match ctx.max_heartrate with
      | none => .error .missingContext
      | some mh =>
        .ok (rows.map (fun r =>
          (w.windspeed * 1000 / 3600,
           pace_efficiency ms mh resting_heart_rate r.velocity_mps r.heartrate_bps)))

/-- Models `math.radians`. -/
noncomputable def radians (d : ℝ) : ℝ := d * Real.pi / 180

/-- Models `math.degrees`. -/
noncomputable def degrees (r : ℝ) : ℝ := r * 180 / Real.pi

/-- Models `math.atan2(y, x)` as the complex argument of `x + y*i`. -/
noncomputable def atan2 (y x : ℝ) : ℝ := Complex.arg ⟨x, y⟩

/-- Python's float `%`: for a positive modulus the result lies in `[0, b)`. -/
noncomputable def fmod (a b : ℝ) : ℝ := a - b * ⌊a / b⌋

/-- Models `DataProcessor._calculate_bearing`. -/
noncomputable def calculate_bearing (lat1 lon1 lat2 lon2 : ℝ) : ℝ :=
  let rlat1 := radians lat1
  let rlon1 := radians lon1
  let rlat2 := radians lat2
  let rlon2 := radians lon2
  let delta_lon := rlon2 - rlon1
  let x := Real.sin delta_lon * Real.cos rlat2
  let y := Real.cos rlat1 * Real.sin rlat2 -
    Real.sin rlat1 * Real.cos rlat2 * Real.cos delta_lon
  fmod (degrees (atan2 x y) + 360) 360

/-- The spec's standard forward-azimuth formula, written from the spec text:
`(degrees(atan2(sin(dlon)*cos(lat2), cos(lat1)*sin(lat2) - sin(lat1)*cos(lat2)*cos(dlon))) + 360) mod 360`,
all angles converted to radians internally. -/
noncomputable def spec_forward_azimuth (lat1 lon1 lat2 lon2 : ℝ) : ℝ :=
  fmod (degrees (atan2
    (Real.sin (radians lon2 - radians lon1) * Real.cos (radians lat2))
    (Real.cos (radians lat1) * Real.sin (radians lat2) -
      Real.sin (radians lat1) * Real.cos (radians lat2) *
        Real.cos (radians lon2 - radians lon1))) + 360) 360

/-- The `athletedir_degree` column: row 0 is never assigned by the loop
(`NaN`), row `i ≥ 1` receives the bearing from row `i-1` to row `i`. -/
noncomputable def athletedir (lat lon : List ℝ) : List (Option ℝ) :=
  (List.range lat.length).map (fun i =>
    if i = 0 then none
    else some (calculate_bearing (lat.getD (i - 1) 0) (lon.getD (i - 1) 0)
      (lat.getD i 0) (lon.getD i 0)))

/-- Models `windspeed_mps = json_data["weather"]["windspeed"] * 1000 / 3600`. -/
noncomputable def windspeed_mps (windspeed_kph : ℝ) : ℝ := windspeed_kph * 1000 / 3600

/-- Models `relative_winddir_degree = (winddir_degree - athletedir_degree) % 360`,
`NaN` (here `none`) propagating from the missing first bearing. -/
noncomputable def relative_winddir (lat lon : List ℝ) (winddir : ℝ) : List (Option ℝ) :=
  (athletedir lat lon).map (Option.map (fun b => fmod (winddir - b) 360))

/-- Models `headwind_mps = windspeed_mps * np.cos(np.radians(relative_winddir_degree))`. -/
noncomputable def headwind_mps (lat lon : List ℝ) (winddir windspeed_kph : ℝ) : List (Option ℝ) :=
  (relative_winddir lat lon winddir).map
    (Option.map (fun r => windspeed_mps windspeed_kph * Real.cos (radians r)))

/-- Models `crosswind_mps = windspeed_mps * np.sin(np.radians(relative_winddir_degree))`. -/
noncomputable def crosswind_mps (lat lon : List ℝ) (winddir windspeed_kph : ℝ) : List (Option ℝ) :=
  (relative_winddir lat lon winddir).map
    (Option.map (fun r => windspeed_mps windspeed_kph * Real.sin (radians r)))

instance {ε α : Type} [DecidableEq ε] [DecidableEq α] : DecidableEq (Except ε α) := fun x y =>
  match x, y with
  | .error e, .error f => decidable_of_iff (e = f) (by simp)
  | .ok a, .ok b => decidable_of_iff (a = b) (by simp)
  | .error _, .ok _ => isFalse (by simp)
  | .ok _, .error _ => isFalse (by simp)

lemma getD_range_map {α : Type} (f : ℕ → α) (n i : ℕ) (d : α) (h : i < n) :
    ((List.range n).map f).getD i d = f i := by
  rw [List.getD_eq_getElem?_getD, List.getElem?_map, List.getElem?_range h]
  rfl

lemma length_pandasInterpolate (col : List (Option ℚ)) :
    (pandasInterpolate col).length = col.length := by
  simp [pandasInterpolate]

lemma getD_pandasInterpolate (col : List (Option ℚ)) (i : ℕ) (h : i < col.length) :
    (pandasInterpolate col).getD i none = interpAt col i :=
  getD_range_map _ _ _ _ h

lemma foldl_min_le (l : List ℕ) (a : ℕ) : l.foldl min a ≤ a := by
  induction l generalizing a with
  | nil => simp
  | cons x xs ih =>
    simp only [List.foldl_cons]
    exact le_trans (ih (min a x)) (min_le_left a x)

lemma foldl_min_le_mem {l : List ℕ} {x : ℕ} (hx : x ∈ l) (a : ℕ) : l.foldl min a ≤ x := by
  induction l generalizing a with
  | nil => cases hx
  | cons y ys ih =>
    rcases List.mem_cons.mp hx with h | h
    · subst h
      simp only [List.foldl_cons]
      exact le_trans (foldl_min_le ys (min a x)) (min_le_right a x)
    · exact ih h (min a y)

lemma le_foldl_max (l : List ℕ) (a : ℕ) : a ≤ l.foldl max a := by
  induction l generalizing a with
  | nil => simp
  | cons x xs ih =>
    simp only [List.foldl_cons]
    exact le_trans (le_max_left a x) (ih (max a x))

lemma mem_le_foldl_max {l : List ℕ} {x : ℕ} (hx : x ∈ l) (a : ℕ) : x ≤ l.foldl max a := by
  induction l generalizing a with
  | nil => cases hx
  | cons y ys ih =>
    rcases List.mem_cons.mp hx with h | h
    · subst h
      simp only [List.foldl_cons]
      exact le_trans (le_max_right a x) (le_foldl_max ys (max a x))
    · exact ih h (max a y)

lemma listMin_le {time : List ℕ} {x : ℕ} (hx : x ∈ time) : listMin time ≤ x := by
  cases time with
  | nil => cases hx
  | cons t ts =>
    rcases List.mem_cons.mp hx with h | h
    · subst h; exact foldl_min_le ts x
    · exact foldl_min_le_mem h t

lemma le_listMax {time : List ℕ} {x : ℕ} (hx : x ∈ time) : x ≤ listMax time := by
  cases time with
  | nil => cases hx
  | cons t ts =>
    rcases List.mem_cons.mp hx with h | h
    · subst h; exact le_foldl_max ts x
    · exact mem_le_foldl_max h t

lemma length_complete_time_range (time : List ℕ) :
    (complete_time_range time).length = listMax time - listMin time + 1 := by
  simp [complete_time_range]

lemma getD_complete_time_range (time : List ℕ) (i : ℕ)
    (h : i < listMax time - listMin time + 1) :
    (complete_time_range time).getD i 0 = listMin time + i :=
  getD_range_map _ _ _ _ h

lemma length_alignedRows (time : List ℕ) (col : List (Option ℚ)) :
    (alignedRows time col).length = listMax time - listMin time + 1 := by
  simp [alignedRows, length_complete_time_range]

lemma getD_alignedRows (time : List ℕ) (col : List (Option ℚ)) (d : ℕ)
    (h : d < listMax time - listMin time + 1) :
    (alignedRows time col).getD d ⟨0, none, none⟩ =
      ⟨listMin time + d,
       if listMin time + d ∈ time then some true else none,
       (pandasInterpolate ((complete_time_range time).map (reindexVal time col))).getD d none⟩ := by
  have h' : d < (complete_time_range time).length := by
    rw [length_complete_time_range]; exact h
  simp only [alignedRows]
  rw [getD_range_map _ _ _ _ h', getD_complete_time_range _ _ h]

lemma head?_filterMap_cons {α β : Type} (f : α → Option β) (a : α) (l : List α) :
    (List.filterMap f (a :: l)).head? =
      match f a with
      | some b => some b
      | none => (List.filterMap f l).head? := by
  rw [List.filterMap_cons]
  cases f a <;> simp

lemma prevObs_succ_obs (col : List (Option ℚ)) (i : ℕ) (v : ℚ)
    (h : col.getD i none = some v) : prevObs col (i + 1) = some (i, v) := by
  unfold prevObs
  rw [List.range_succ, List.filterMap_append]
  have hsing : List.filterMap (fun j => (col.getD j none).map (fun v => (j, v))) [i]
      = [(i, v)] := by
    simp only [List.filterMap_cons, List.filterMap_nil, h, Option.map_some']
  rw [hsing, List.getLast?_concat]

lemma prevObs_succ_none (col : List (Option ℚ)) (i : ℕ)
    (h : col.getD i none = none) : prevObs col (i + 1) = prevObs col i := by
  unfold prevObs
  rw [List.range_succ, List.filterMap_append]
  have hsing : List.filterMap (fun j => (col.getD j none).map (fun v => (j, v))) [i]
      = [] := by
    simp only [List.filterMap_cons, List.filterMap_nil, h, Option.map_none']
  rw [hsing, List.append_nil]

lemma prevObs_none (col : List (Option ℚ)) (i : ℕ)
    (h : ∀ m, m < i → col.getD m none = none) : prevObs col i = none := by
  unfold prevObs
  have hnil : (List.range i).filterMap
      (fun j => (col.getD j none).map (fun v => (j, v))) = [] := by
    rw [List.filterMap_eq_nil_iff]
    intro j hj
    rw [h j (List.mem_range.mp hj)]
    rfl
  rw [hnil]
  rfl

lemma prevObs_of_last (col : List (Option ℚ)) (j : ℕ) (vj : ℚ)
    (hj : col.getD j none = some vj) :
    ∀ i, j < i → (∀ m, j < m → m < i → col.getD m none = none) →
      prevObs col i = some (j, vj) := by
  intro i
  induction i with
  | zero => intro h; exact absurd h (Nat.not_lt_zero j)
  | succ n ih =>
    intro hji hgap
    rcases Nat.lt_succ_iff_lt_or_eq.mp hji with h | h
    · have hn : col.getD n none = none := hgap n h (Nat.lt_succ_self n)
      rw [prevObs_succ_none col n hn]
      exact ih h (fun m hm1 hm2 => hgap m hm1 (Nat.lt_succ_of_lt hm2))
    · subst h
      exact prevObs_succ_obs col j vj hj

lemma nextObs_none (col : List (Option ℚ)) (i : ℕ)
    (h : ∀ m, m < col.length → i < m → col.getD m none = none) : nextObs col i = none := by
  unfold nextObs
  have hnil : ((List.range (col.length - (i + 1))).map (fun d => i + 1 + d)).filterMap
      (fun j => (col.getD j none).map (fun v => (j, v))) = [] := by
    rw [List.filterMap_eq_nil_iff]
    intro j hj
    simp only [List.mem_map, List.mem_range] at hj
    obtain ⟨d, hd, rfl⟩ := hj
    rw [h (i + 1 + d) (by omega) (by omega)]
    rfl
  rw [hnil]
  rfl

lemma nextObs_succ_obs (col : List (Option ℚ)) (i : ℕ) (v : ℚ)
    (hlen : i + 1 < col.length) (h : col.getD (i + 1) none = some v) :
    nextObs col i = some (i + 1, v) := by
  unfold nextObs
  have hm : col.length - (i + 1) = (col.length - (i + 2)) + 1 := by omega
  rw [hm, List.range_succ_eq_map, List.map_cons, head?_filterMap_cons]
  simp only [Nat.add_zero, h, Option.map_some']

lemma nextObs_succ_none (col : List (Option ℚ)) (i : ℕ)
    (h : col.getD (i + 1) none = none) : nextObs col i = nextObs col (i + 1) := by
  by_cases hlen : i + 1 < col.length
  · unfold nextObs
    have hm : col.length - (i + 1) = (col.length - (i + 2)) + 1 := by omega
    rw [hm, List.range_succ_eq_map]
    simp only [List.map_cons, List.filterMap_cons, List.map_map, h, Option.map_none]
    have hfun : (fun d => i + 1 + d) ∘ Nat.succ = fun d => i + 1 + 1 + d := by
      funext d
      simp
      omega
    rw [hfun]
    simp
  · unfold nextObs
    have h1 : col.length - (i + 1) = 0 := by omega
    have h2 : col.length - (i + 1 + 1) = 0 := by omega
    rw [h1, h2]
    rfl

lemma nextObs_of_first_aux (col : List (Option ℚ)) (k : ℕ) (vk : ℚ)
    (hk : col.getD k none = some vk) (hkl : k < col.length) :
    ∀ n i, k = i + n + 1 → (∀ m, i < m → m < k → col.getD m none = none) →
      nextObs col i = some (k, vk) := by
  intro n
  induction n with
  | zero =>
    intro i hik _
    have hik' : k = i + 1 := by omega
    subst hik'
    exact nextObs_succ_obs col i vk hkl hk
  | succ n ih =>
    intro i hik hgap
    have h1 : col.getD (i + 1) none = none := hgap (i + 1) (by omega) (by omega)
    rw [nextObs_succ_none col i h1]
    exact ih (i + 1) (by omega) (fun m hm1 hm2 => hgap m (by omega) hm2)

lemma nextObs_of_first (col : List (Option ℚ)) (i k : ℕ) (vk : ℚ)
    (hk : col.getD k none = some vk) (hkl : k < col.length) (hik : i < k)
    (hgap : ∀ m, i < m → m < k → col.getD m none = none) :
    nextObs col i = some (k, vk) :=
  nextObs_of_first_aux col k vk hk hkl (k - i - 1) i (by omega) hgap

lemma interpAt_observed (col : List (Option ℚ)) (i : ℕ) (v : ℚ)
    (h : col.getD i none = some v) : interpAt col i = some v := by
  unfold interpAt
  rw [h]

lemma getD_mem {α : Type} (l : List α) (i : ℕ) (d : α) (h : i < l.length) :
    l.getD i d ∈ l := by
  rw [List.getD_eq_getElem?_getD, List.getElem?_eq_getElem h]
  exact List.getElem_mem h

lemma reindexVal_not_mem (time : List ℕ) (col : List (Option ℚ)) (g : ℕ)
    (h : g ∉ time) : reindexVal time col g = none := by
  unfold reindexVal
  have hfind : (time.zip col).find? (fun p => p.1 == g) = none := by
    rw [List.find?_eq_none]
    intro p hp
    have hmem : p.1 ∈ time := (List.of_mem_zip hp).1
    simp only [beq_iff_eq]
    intro hpg
    exact h (hpg ▸ hmem)
  rw [hfind]

lemma reindexVal_get (time : List ℕ) (col : List (Option ℚ)) (i : ℕ) (g : ℕ)
    (hnd : time.Nodup) (hi : i < time.length) (hic : i < col.length)
    (hg : time.getD i 0 = g) : reindexVal time col g = col.getD i none := by
  induction time generalizing col i with
  | nil => exact absurd hi (by simp)
  | cons t ts ih =>
    cases col with
    | nil => exact absurd hic (by simp)
    | cons c cs =>
      cases i with
      | zero =>
        simp only [List.getD_cons_zero] at hg
        subst hg
        unfold reindexVal
        simp [List.find?_cons]
      | succ n =>
        simp only [List.getD_cons_succ] at hg
        have hn : n < ts.length := by
          simpa using hi
        have hmem : g ∈ ts := hg ▸ getD_mem ts n 0 hn
        have htg : (t == g) = false := by
          simp only [beq_eq_false_iff_ne, ne_eq]
          intro htg
          exact (List.nodup_cons.mp hnd).1 (htg ▸ hmem)
        have hstep : reindexVal (t :: ts) (c :: cs) g = reindexVal ts cs g := by
          unfold reindexVal
          simp only [List.zip_cons_cons, List.find?_cons, htg]
        rw [hstep, List.getD_cons_succ]
        exact ih cs n (List.nodup_cons.mp hnd).2 hn (by simpa using hic) hg

lemma getD_map' {α β : Type} (f : α → β) (l : List α) (i : ℕ) (d : β) (e : α)
    (h : i < l.length) : (l.map f).getD i d = f (l.getD i e) := by
  simp [List.getD_eq_getElem?_getD, List.getElem?_map, List.getElem?_eq_getElem h]

lemma getD_map_option {α β : Type} (f : α → β) (l : List (Option α)) (i : ℕ) :
    (l.map (Option.map f)).getD i none = (l.getD i none).map f := by
  induction l generalizing i with
  | nil => simp
  | cons x xs ih =>
    cases i with
    | zero => simp
    | succ n => simpa using ih n

lemma athletedir_getD_zero (lat lon : List ℝ) :
    (athletedir lat lon).getD 0 none = none := by
  unfold athletedir
  cases h : lat.length with
  | zero => simp
  | succ n =>
    rw [getD_range_map _ _ _ _ (by omega)]
    simp

lemma athletedir_getD (lat lon : List ℝ) (i : ℕ) (h1 : 1 ≤ i) (hi : i < lat.length) :
    (athletedir lat lon).getD i none =
      some (calculate_bearing (lat.getD (i - 1) 0) (lon.getD (i - 1) 0)
        (lat.getD i 0) (lon.getD i 0)) := by
  unfold athletedir
  rw [getD_range_map _ _ _ _ hi]
  have hne : i ≠ 0 := by omega
  simp [hne]

lemma fmod_bounds (a b : ℝ) (hb : 0 < b) : 0 ≤ fmod a b ∧ fmod a b < b := by
  unfold fmod
  have h1 : a - b * ⌊a / b⌋ = b * Int.fract (a / b) := by
    rw [Int.fract]
    field_simp
  constructor
  · rw [h1]
    exact mul_nonneg hb.le (Int.fract_nonneg _)
  · rw [h1]
    calc b * Int.fract (a / b) < b * 1 :=
          mul_lt_mul_of_pos_left (Int.fract_lt_one _) hb
      _ = b := mul_one b

lemma calculate_bearing_same (la lo : ℝ) : calculate_bearing la lo la lo = 0 := by
  unfold calculate_bearing
  simp only [sub_self, Real.sin_zero, Real.cos_zero, zero_mul, mul_one]
  have hy : Real.cos (radians la) * Real.sin (radians la) -
      Real.sin (radians la) * Real.cos (radians la) = 0 := by ring
  rw [hy]
  have ha : atan2 0 0 = 0 := by
    unfold atan2
    have h0 : (⟨0, 0⟩ : ℂ) = 0 := Complex.ext rfl rfl
    rw [h0, Complex.arg_zero]
  rw [ha]
  have hd : degrees 0 = 0 := by
    unfold degrees
    ring
  rw [hd, zero_add]
  unfold fmod
  rw [div_self (by norm_num : (360 : ℝ) ≠ 0)]
  rw [Int.floor_one]
  norm_num

/-- C5 fails as stated: a zero-cadence row with negative velocity produces
`-inf`, which the mask `== np.inf` does not match, so the stored stride
length is negative infinity, not `0`. -/
theorem C5_counterexample :
    stride_length_m (.fin (-5)) (.fin 0) = .ninf ∧ FVal.ninf ≠ FVal.fin 0 := by
  decide

/-- C5 (amended): the stride length column never contains positive infinity;
a zero-cadence row with positive velocity stores exactly `0`, while a
zero-cadence row with negative velocity stores negative infinity, because the
fixup mask `== np.inf` matches only `+inf`. -/
theorem C5_stride_posinf_only (a : ℚ) :
    (0 < a → stride_length_m (.fin a) (.fin 0) = .fin 0) ∧
    (a < 0 → stride_length_m (.fin a) (.fin 0) = .ninf) ∧
    (∀ v c : FVal, stride_length_m v c ≠ .pinf) := by
  refine ⟨?_, ?_, ?_⟩
  · intro ha
    simp [stride_length_m, FVal.div, stride_fixup, FVal.eqPosInf, ha, ha.ne']
  · intro ha
    simp [stride_length_m, FVal.div, stride_fixup, FVal.eqPosInf, ha.ne, lt_asymm ha]
  · intro v c h
    unfold stride_length_m stride_fixup at h
    cases hd : FVal.div v c <;> rw [hd] at h <;>
      simp [FVal.eqPosInf] at h

/-- Witness for C5 at velocity `5`, cadence `0`. -/
theorem C5_witness : 0 < (5 : ℚ) ∧ stride_length_m (.fin 5) (.fin 0) = .fin 0 :=
  ⟨by norm_num, (C5_stride_posinf_only 5).1 (by norm_num)⟩

/-- C10: when both the velocity and the cadence term are zero the division
yields NaN, and the `== np.inf` fixup does not replace NaN, so NaN is
preserved in the stride length column. -/
theorem C10_zero_over_zero_nan :
    stride_length_m (.fin 0) (.fin 0) = .nan ∧ stride_fixup .nan = .nan := by
  decide

/-- C8: if the run context lacks the weather observation, the max-speed value
or the max-heart-rate value, feature derivation fails with an error rather
than completing with substituted defaults. -/
theorem C8_missing_context (rows : List FRow) (ctx : RunContext) (resting : ℚ)
    (h : ctx.weather = none ∨ ctx.max_speed = none ∨ ctx.max_heartrate = none) :
    feature_engineering rows ctx resting = .error .missingContext := by
  obtain ⟨w, ms, mh⟩ := ctx
  dsimp only at h
  rcases h with h | h | h
  · subst h
    simp [feature_engineering]
  · subst h
    cases w <;> simp [feature_engineering]
  · subst h
    cases w <;> cases ms <;> simp [feature_engineering]

/-- Witness for C8: missing weather key. -/
theorem C8_witness :
    feature_engineering [] ⟨none, some 7, some 190⟩ 60 = .error .missingContext :=
  C8_missing_context [] ⟨none, some 7, some 190⟩ 60 (Or.inl rfl)

/-- C2 fails as stated: with raw samples at `t = 0, 2` and the channel
observed only at `t = 0`, the rows after the last observed sample are filled
with the last observed value by `interpolate`'s default forward fill, not
left missing. -/
theorem C2_counterexample :
    interpolate_missing_data [0, 2] [some 1, none] =
      .ok [⟨0, some true, some 1⟩, ⟨1, none, some 1⟩, ⟨2, some true, some 1⟩] := by
  norm_num [interpolate_missing_data, alignedRows, complete_time_range, listMin, listMax,
    pandasInterpolate, interpAt, prevObs, nextObs, reindexVal, List.range_succ]

/-- C2 (amended): interpolation fills no row before a column's first
observed sample (those stay missing), and fills every row after the
column's last observed sample with that last observed value. -/
theorem C2_interpolation_edges (col : List (Option ℚ)) (i : ℕ) (hi : i < col.length) :
    ((∀ j, j ≤ i → col.getD j none = none) →
      (pandasInterpolate col).getD i none = none) ∧
    (∀ j vj, col.getD j none = some vj → j < i →
      (∀ m, m < col.length → j < m → col.getD m none = none) →
      (pandasInterpolate col).getD i none = some vj) := by
  constructor
  · intro hlead
    rw [getD_pandasInterpolate _ _ hi]
    have hinone := hlead i le_rfl
    have hprev : prevObs col i = none :=
      prevObs_none col i (fun m hm => hlead m (le_of_lt hm))
    unfold interpAt
    rw [hinone, hprev]
  · intro j vj hj hji htrail
    rw [getD_pandasInterpolate _ _ hi]
    have hinone : col.getD i none = none := htrail i hi hji
    have hprev : prevObs col i = some (j, vj) :=
      prevObs_of_last col j vj hj i hji (fun m hm1 hm2 => htrail m (lt_trans hm2 hi) hm1)
    have hnext : nextObs col i = none :=
      nextObs_none col i (fun m hm1 hm2 => htrail m hm1 (lt_trans hji hm2))
    unfold interpAt
    rw [hinone, hprev, hnext]

/-- Witness for C2 at a column observed only at position 1. -/
theorem C2_witness :
    2 < ([none, some (1 : ℚ), none] : List (Option ℚ)).length ∧
    (pandasInterpolate [none, some 1, none]).getD 2 none = some 1 :=
  ⟨by decide,
   (C2_interpolation_edges [none, some 1, none] 2 (by decide)).2 1 1 rfl
     (by decide) (by decide)⟩

/-- C4: inside a maximal gap bounded by observed samples at positions `j`
and `k`, the interpolated value at position `i` is exactly
`vj + (vk - vj) * (i - j) / (k - j)`. -/
theorem C4_gap_linear (col : List (Option ℚ)) (i j k : ℕ) (vj vk : ℚ)
    (hj : col.getD j none = some vj) (hk : col.getD k none = some vk)
    (hji : j < i) (hik : i < k) (hkl : k < col.length)
    (hgap : ∀ m, m < col.length → j < m → m < k → col.getD m none = none) :
    (pandasInterpolate col).getD i none =
      some (vj + (vk - vj) * ((i : ℚ) - (j : ℚ)) / ((k : ℚ) - (j : ℚ))) := by
  have hil : i < col.length := lt_trans hik hkl
  rw [getD_pandasInterpolate _ _ hil]
  have hinone : col.getD i none = none := hgap i hil hji hik
  have hprev : prevObs col i = some (j, vj) :=
    prevObs_of_last col j vj hj i hji
      (fun m hm1 hm2 => hgap m (lt_trans hm2 hil) hm1 (lt_trans hm2 hik))
  have hnext : nextObs col i = some (k, vk) :=
    nextObs_of_first col i k vk hk hkl hik
      (fun m hm1 hm2 => hgap m (lt_trans hm2 hkl) (lt_trans hji hm1) hm2)
  unfold interpAt
  rw [hinone, hprev, hnext]

/-- Witness for C4 on the gap between positions 0 and 3. -/
theorem C4_witness :
    (pandasInterpolate [some 1, none, none, some 4]).getD 2 none =
      some (1 + (4 - 1) * (((2 : ℕ) : ℚ) - ((0 : ℕ) : ℚ)) / (((3 : ℕ) : ℚ) - ((0 : ℕ) : ℚ))) :=
  C4_gap_linear [some 1, none, none, some 4] 2 0 3 1 4 rfl rfl
    (by decide) (by decide) (by decide) (by decide)

/-- C1 fails as stated: a non-empty non-decreasing time channel may contain
a duplicated timestamp, and then `reindex` raises instead of producing an
aligned table, so no table with the stated row count exists. -/
theorem C1_counterexample :
    ([0, 0] : List ℕ) ≠ [] ∧ List.Chain' (· ≤ ·) [0, 0] ∧
    interpolate_missing_data [0, 0] [some 1, some 2] = .error .duplicateLabels := by
  refine ⟨by decide, by simp [List.chain'_cons], ?_⟩
  norm_num [interpolate_missing_data]

/-- C1 (amended): for a non-empty, strictly increasing whole-second time
channel, alignment succeeds and produces exactly
`max(time) - min(time) + 1` rows whose timestamps form the contiguous
ascending one-second grid spanning `[min(time), max(time)]` with no
duplicates. -/
theorem C1_aligned_grid (time : List ℕ) (col : List (Option ℚ)) (hne : time ≠ [])
    (hmono : List.Chain' (· < ·) time) :
    interpolate_missing_data time col = .ok (alignedRows time col) ∧
    (alignedRows time col).length = listMax time - listMin time + 1 ∧
    (∀ i, i < (alignedRows time col).length →
      ((alignedRows time col).getD i ⟨0, none, none⟩).timestamp = listMin time + i) ∧
    ((alignedRows time col).map AlignedRow.timestamp).Nodup ∧
    ((alignedRows time col).getD 0 ⟨0, none, none⟩).timestamp = listMin time ∧
    ((alignedRows time col).getD ((alignedRows time col).length - 1)
      ⟨0, none, none⟩).timestamp = listMax time := by
  have hnd : time.Nodup :=
    List.Pairwise.imp ne_of_lt (List.chain'_iff_pairwise.mp hmono)
  have hts : ∀ i, i < (alignedRows time col).length →
      ((alignedRows time col).getD i ⟨0, none, none⟩).timestamp = listMin time + i := by
    intro i hi
    rw [length_alignedRows] at hi
    rw [getD_alignedRows _ _ _ hi]
  have hminmax : listMin time ≤ listMax time := by
    cases time with
    | nil => exact absurd rfl hne
    | cons t ts =>
      exact le_trans (listMin_le (List.mem_cons_self t ts))
        (le_listMax (List.mem_cons_self t ts))
  refine ⟨?_, length_alignedRows time col, hts, ?_, ?_, ?_⟩
  · cases time with
    | nil => exact absurd rfl hne
    | cons t ts =>
      simp only [interpolate_missing_data]
      rw [if_pos hnd]
  · have hmap : (alignedRows time col).map AlignedRow.timestamp =
        (List.range (listMax time - listMin time + 1)).map (fun i => listMin time + i) := by
      simp only [alignedRows, List.map_map, length_complete_time_range]
      apply List.map_congr_left
      intro a ha
      simp only [Function.comp_apply]
      rw [getD_complete_time_range _ _ (List.mem_range.mp ha)]
    rw [hmap]
    exact (List.nodup_range _).map (fun a b hab => by omega)
  · have h0 : 0 < (alignedRows time col).length := by
      rw [length_alignedRows]
      omega
    rw [hts 0 h0, Nat.add_zero]
  · have hlen : (alignedRows time col).length = listMax time - listMin time + 1 :=
      length_alignedRows time col
    have hlast : (alignedRows time col).length - 1 < (alignedRows time col).length := by
      rw [hlen]
      omega
    rw [hts _ hlast, hlen]
    omega

/-- Witness for C1 on the strictly increasing time channel `[3, 5]`. -/
theorem C1_witness :
    interpolate_missing_data [3, 5] [none, none] = .ok (alignedRows [3, 5] [none, none]) ∧
    (alignedRows [3, 5] [none, none]).length = listMax [3, 5] - listMin [3, 5] + 1 ∧
    (∀ i, i < (alignedRows [3, 5] [none, none]).length →
      ((alignedRows [3, 5] [none, none]).getD i ⟨0, none, none⟩).timestamp
        = listMin [3, 5] + i) ∧
    ((alignedRows [3, 5] [none, none]).map AlignedRow.timestamp).Nodup ∧
    ((alignedRows [3, 5] [none, none]).getD 0 ⟨0, none, none⟩).timestamp = listMin [3, 5] ∧
    ((alignedRows [3, 5] [none, none]).getD ((alignedRows [3, 5] [none, none]).length - 1)
      ⟨0, none, none⟩).timestamp = listMax [3, 5] :=
  C1_aligned_grid [3, 5] [none, none] (by decide) (by norm_num [List.chain'_cons])

/-- C3 fails as stated: a grid-filled row carries `is_original = NaN`
(the reindex fill value), not `is_original = false` — the re-assignment of
the column after reindexing is a no-op. -/
theorem C3_counterexample :
    interpolate_missing_data [0, 2] [some 1, some 3] =
      .ok [⟨0, some true, some 1⟩, ⟨1, none, some 2⟩, ⟨2, some true, some 3⟩] ∧
    ((alignedRows [0, 2] [some 1, some 3]).getD 1 ⟨0, none, none⟩).is_original ≠ some false := by
  constructor
  · norm_num [interpolate_missing_data, alignedRows, complete_time_range, listMin, listMax,
      pandasInterpolate, interpAt, prevObs, nextObs, reindexVal, List.range_succ]
  · have hor : ((alignedRows [0, 2] [some 1, some 3]).getD 1 ⟨0, none, none⟩).is_original
        = none := by
      norm_num [alignedRows, complete_time_range, listMin, listMax,
        pandasInterpolate, interpAt, prevObs, nextObs, reindexVal, List.range_succ]
    rw [hor]
    exact fun hc => Option.noConfusion hc

/-- C3 (amended): rows whose timestamp is an entry of the raw time channel
have `is_original = true` and keep each channel sample that was present
(`some v` is retained unchanged at that timestamp); grid-filled rows have
`is_original` missing (`NaN`), not `false`. -/
theorem C3_original_rows (time : List ℕ) (col : List (Option ℚ)) (hne : time ≠ [])
    (hnd : time.Nodup) (hlen : col.length = time.length) :
    interpolate_missing_data time col = .ok (alignedRows time col) ∧
    (∀ d, d < (alignedRows time col).length →
      (((alignedRows time col).getD d ⟨0, none, none⟩).timestamp ∈ time →
        ((alignedRows time col).getD d ⟨0, none, none⟩).is_original = some true) ∧
      (((alignedRows time col).getD d ⟨0, none, none⟩).timestamp ∉ time →
        ((alignedRows time col).getD d ⟨0, none, none⟩).is_original = none)) ∧
    (∀ i v, i < time.length → col.getD i none = some v →
      ∃ d, d < (alignedRows time col).length ∧
        (alignedRows time col).getD d ⟨0, none, none⟩ = ⟨time.getD i 0, some true, some v⟩) := by
  refine ⟨?_, ?_, ?_⟩
  · cases time with
    | nil => exact absurd rfl hne
    | cons t ts =>
      simp only [interpolate_missing_data]
      rw [if_pos hnd]
  · intro d hd
    rw [length_alignedRows] at hd
    rw [getD_alignedRows _ _ _ hd]
    constructor
    · intro hmem
      simp only at hmem ⊢
      rw [if_pos hmem]
    · intro hmem
      simp only at hmem ⊢
      rw [if_neg hmem]
  · intro i v hi hv
    have hτmem : time.getD i 0 ∈ time := getD_mem time i 0 hi
    have hmn : listMin time ≤ time.getD i 0 := listMin_le hτmem
    have hmx : time.getD i 0 ≤ listMax time := le_listMax hτmem
    have hd : time.getD i 0 - listMin time < listMax time - listMin time + 1 := by omega
    refine ⟨time.getD i 0 - listMin time, ?_, ?_⟩
    · rw [length_alignedRows]
      exact hd
    · rw [getD_alignedRows _ _ _ hd]
      have hts : listMin time + (time.getD i 0 - listMin time) = time.getD i 0 := by omega
      rw [hts, if_pos hτmem]
      have hglen : time.getD i 0 - listMin time < (complete_time_range time).length := by
        rw [length_complete_time_range]
        exact hd
      have hreidx : ((complete_time_range time).map (reindexVal time col)).getD
          (time.getD i 0 - listMin time) none = some v := by
        rw [getD_map' (reindexVal time col) _ _ none 0 hglen,
          getD_complete_time_range _ _ hd, hts]
        rw [reindexVal_get time col i (time.getD i 0) hnd hi (by omega) rfl]
        exact hv
      have hval : (pandasInterpolate ((complete_time_range time).map (reindexVal time col))).getD
          (time.getD i 0 - listMin time) none = some v := by
        rw [getD_pandasInterpolate _ _ (by rw [List.length_map]; exact hglen)]
        exact interpAt_observed _ _ _ hreidx
      rw [hval]

/-- Witness for C3 on time channel `[0, 2]` with samples at both entries. -/
theorem C3_witness :
    interpolate_missing_data [0, 2] [some 1, some 3] =
      .ok (alignedRows [0, 2] [some 1, some 3]) ∧
    (∀ d, d < (alignedRows [0, 2] [some 1, some 3]).length →
      (((alignedRows [0, 2] [some 1, some 3]).getD d ⟨0, none, none⟩).timestamp ∈ [0, 2] →
        ((alignedRows [0, 2] [some 1, some 3]).getD d ⟨0, none, none⟩).is_original = some true) ∧
      (((alignedRows [0, 2] [some 1, some 3]).getD d ⟨0, none, none⟩).timestamp ∉ [0, 2] →
        ((alignedRows [0, 2] [some 1, some 3]).getD d ⟨0, none, none⟩).is_original = none)) ∧
    (∀ i v, i < ([0, 2] : List ℕ).length → ([some 1, some 3] : List (Option ℚ)).getD i none = some v →
      ∃ d, d < (alignedRows [0, 2] [some 1, some 3]).length ∧
        (alignedRows [0, 2] [some 1, some 3]).getD d ⟨0, none, none⟩ =
          ⟨([0, 2] : List ℕ).getD i 0, some true, some v⟩) :=
  C3_original_rows [0, 2] [some 1, some 3] (by decide) (by decide) (by decide)

lemma calculate_bearing_eq_spec (lat1 lon1 lat2 lon2 : ℝ) :
    calculate_bearing lat1 lon1 lat2 lon2 = spec_forward_azimuth lat1 lon1 lat2 lon2 := rfl

lemma calculate_bearing_bounds (lat1 lon1 lat2 lon2 : ℝ) :
    0 ≤ calculate_bearing lat1 lon1 lat2 lon2 ∧ calculate_bearing lat1 lon1 lat2 lon2 < 360 := by
  unfold calculate_bearing
  exact fmod_bounds _ 360 (by norm_num)

/-- C6: the bearing column is missing at row 0; at every later row it equals
the spec's standard forward-azimuth formula applied to the previous and
current coordinates, and every computed bearing lies in `[0, 360)`. -/
theorem C6_bearing_column (lat lon : List ℝ) (i : ℕ) (hlen : 2 ≤ lat.length)
    (h1 : 1 ≤ i) (hi : i < lat.length) :
    (athletedir lat lon).getD 0 none = none ∧
    (athletedir lat lon).getD i none =
      some (spec_forward_azimuth (lat.getD (i - 1) 0) (lon.getD (i - 1) 0)
        (lat.getD i 0) (lon.getD i 0)) ∧
    (∀ b : ℝ, (athletedir lat lon).getD i none = some b → 0 ≤ b ∧ b < 360) := by
  refine ⟨athletedir_getD_zero lat lon, ?_, ?_⟩
  · rw [athletedir_getD lat lon i h1 hi, calculate_bearing_eq_spec]
  · intro b hb
    rw [athletedir_getD lat lon i h1 hi] at hb
    have hbeq : calculate_bearing (lat.getD (i - 1) 0) (lon.getD (i - 1) 0)
        (lat.getD i 0) (lon.getD i 0) = b := Option.some.inj hb
    rw [← hbeq]
    exact calculate_bearing_bounds _ _ _ _

/-- Witness for C6 on a two-row table at the origin. -/
theorem C6_witness :
    (athletedir [0, 0] [0, 0]).getD 0 none = none ∧
    (athletedir [0, 0] [0, 0]).getD 1 none =
      some (spec_forward_azimuth (([0, 0] : List ℝ).getD 0 0) (([0, 0] : List ℝ).getD 0 0)
        (([0, 0] : List ℝ).getD 1 0) (([0, 0] : List ℝ).getD 1 0)) ∧
    (∀ b : ℝ, (athletedir [0, 0] [0, 0]).getD 1 none = some b → 0 ≤ b ∧ b < 360) :=
  C6_bearing_column [0, 0] [0, 0] 1 (by simp) le_rfl (by simp)

/-- C7: for a row with a defined bearing, the relative wind direction,
the wind-speed unit conversion and the head/cross-wind components follow the
stated formulas, and headwind² + crosswind² = windspeed² exactly. -/
theorem C7_wind_decomposition (lat lon : List ℝ) (winddir kph : ℝ) (i : ℕ) (b : ℝ)
    (hb : (athletedir lat lon).getD i none = some b) :
    (relative_winddir lat lon winddir).getD i none = some (fmod (winddir - b) 360) ∧
    (headwind_mps lat lon winddir kph).getD i none =
      some (windspeed_mps kph * Real.cos (radians (fmod (winddir - b) 360))) ∧
    (crosswind_mps lat lon winddir kph).getD i none =
      some (windspeed_mps kph * Real.sin (radians (fmod (winddir - b) 360))) ∧
    (∀ h c : ℝ, (headwind_mps lat lon winddir kph).getD i none = some h →
      (crosswind_mps lat lon winddir kph).getD i none = some c →
      h ^ 2 + c ^ 2 = windspeed_mps kph ^ 2) := by
  have hrel : (relative_winddir lat lon winddir).getD i none =
      some (fmod (winddir - b) 360) := by
    unfold relative_winddir
    rw [getD_map_option, hb]
    rfl
  have hhead : (headwind_mps lat lon winddir kph).getD i none =
      some (windspeed_mps kph * Real.cos (radians (fmod (winddir - b) 360))) := by
    unfold headwind_mps
    rw [getD_map_option, hrel]
    rfl
  have hcross : (crosswind_mps lat lon winddir kph).getD i none =
      some (windspeed_mps kph * Real.sin (radians (fmod (winddir - b) 360))) := by
    unfold crosswind_mps
    rw [getD_map_option, hrel]
    rfl
  refine ⟨hrel, hhead, hcross, ?_⟩
  intro h c hh hc
  rw [hhead] at hh
  rw [hcross] at hc
  have hh' : windspeed_mps kph * Real.cos (radians (fmod (winddir - b) 360)) = h :=
    Option.some.inj hh
  have hc' : windspeed_mps kph * Real.sin (radians (fmod (winddir - b) 360)) = c :=
    Option.some.inj hc
  rw [← hh', ← hc']
  have hsc := Real.sin_sq_add_cos_sq (radians (fmod (winddir - b) 360))
  linear_combination windspeed_mps kph ^ 2 * hsc

lemma athletedir_pair_zero : (athletedir [0, 0] [0, 0]).getD 1 none = some 0 := by
  rw [athletedir_getD [0, 0] [0, 0] 1 le_rfl (by simp)]
  rw [show (1 : ℕ) - 1 = 0 from rfl]
  rw [show (([0, 0] : List ℝ)).getD 0 0 = 0 from rfl]
  rw [show (([0, 0] : List ℝ)).getD 1 0 = 0 from rfl]
  rw [calculate_bearing_same]

/-- Witness for C7 with wind at 90° and 36 km/h over a stationary pair of
rows whose bearing is 0. -/
theorem C7_witness :
    (relative_winddir [0, 0] [0, 0] 90).getD 1 none = some (fmod (90 - 0) 360) ∧
    (headwind_mps [0, 0] [0, 0] 90 36).getD 1 none =
      some (windspeed_mps 36 * Real.cos (radians (fmod (90 - 0) 360))) ∧
    (crosswind_mps [0, 0] [0, 0] 90 36).getD 1 none =
      some (windspeed_mps 36 * Real.sin (radians (fmod (90 - 0) 360))) ∧
    (∀ h c : ℝ, (headwind_mps [0, 0] [0, 0] 90 36).getD 1 none = some h →
      (crosswind_mps [0, 0] [0, 0] 90 36).getD 1 none = some c →
      h ^ 2 + c ^ 2 = windspeed_mps 36 ^ 2) :=
  C7_wind_decomposition [0, 0] [0, 0] 90 36 1 0 athletedir_pair_zero

/-- C9: when two consecutive rows have identical coordinates, the computed
bearing is exactly `0` (a defined value, due north, via `atan2(0,0) = 0`),
so the wind decomposition treats the athlete as travelling north. -/
theorem C9_stationary_bearing (lat lon : List ℝ) (winddir : ℝ) (i : ℕ)
    (h1 : 1 ≤ i) (hi : i < lat.length)
    (hlat : lat.getD (i - 1) 0 = lat.getD i 0) (hlon : lon.getD (i - 1) 0 = lon.getD i 0) :
    (athletedir lat lon).getD i none = some 0 ∧
    (relative_winddir lat lon winddir).getD i none = some (fmod (winddir - 0) 360) := by
  have hb : (athletedir lat lon).getD i none = some 0 := by
    rw [athletedir_getD lat lon i h1 hi, hlat, hlon, calculate_bearing_same]
  refine ⟨hb, ?_⟩
  unfold relative_winddir
  rw [getD_map_option, hb]
  rfl

/-- Witness for C9 on two identical coordinate rows. -/
theorem C9_witness :
    (athletedir [10, 10] [20, 20]).getD 1 none = some 0 ∧
    (relative_winddir [10, 10] [20, 20] 90).getD 1 none = some (fmod (90 - 0) 360) :=
  C9_stationary_bearing [10, 10] [20, 20] 90 1 le_rfl (by simp) rfl rfl

end MarathonSim
